import Mathlib

/-!
Verification of the imgrid grid-overlay library.

The Go source (imgrid.go) is shallowly embedded here.  Go `int` values are
modelled as Lean `Int`; Go integer division and remainder truncate toward
zero, so they are modelled by `Int.tdiv` and `Int.tmod`.  The pixel canvas
is modelled as a total function from integer coordinates to pixel values,
and the imperative drawing loops as folds over the exact index ranges the
loops visit.
-/

namespace Imgrid

/-! ## CoordinateMapper: CellToPixel and PixelToCell -/

/-- Embedding of Go CellToPixel (imgrid.go lines 90-110).  The error branch
returns the invalid-cell-number error; otherwise columnsPerRow is
imageWidth / cellSize, replaced by 1 when that quotient is zero, and the
result is the center pixel of the row-major cell. -/
def CellToPixel (cellNumber imageWidth cellSize : Int) : Except String (Int × Int) :=
  if cellNumber < 0 then
    Except.error ("invalid cell number")
  else
    let columnsPerRow0 := imageWidth.tdiv cellSize
    let columnsPerRow := if columnsPerRow0 = 0 then 1 else columnsPerRow0
    let gridX := cellNumber.tmod columnsPerRow
    let gridY := cellNumber.tdiv columnsPerRow
    let pixelX := gridX * cellSize + cellSize.tdiv 2
    let pixelY := gridY * cellSize + cellSize.tdiv 2
    Except.ok (pixelX, pixelY)

/-- Embedding of Go PixelToCell (imgrid.go lines 113-123): columnsPerRow as
in CellToPixel, then row-major linearization of the truncated quotients of
the pixel coordinates. -/
def PixelToCell (x y imageWidth cellSize : Int) : Int :=
  let columnsPerRow0 := imageWidth.tdiv cellSize
  let columnsPerRow := if columnsPerRow0 = 0 then 1 else columnsPerRow0
  let gridX := x.tdiv cellSize
  let gridY := y.tdiv cellSize
  gridY * columnsPerRow + gridX

/-- The formula the spec states for CellToPixel, with
columnsPerRow = max 1 (imageWidth / cellSize).  Written from the spec text
for comparison with the code embedding. -/
def cellToPixelSpec (cellNumber imageWidth cellSize : Int) : Int × Int :=
  let columnsPerRow := max 1 (imageWidth.tdiv cellSize)
  let col := cellNumber.tmod columnsPerRow
  let row := cellNumber.tdiv columnsPerRow
  (col * cellSize + cellSize.tdiv 2, row * cellSize + cellSize.tdiv 2)

/-- The formula the spec states for PixelToCell, with
columnsPerRow = max 1 (imageWidth / cellSize).  Written from the spec text
for comparison with the code embedding. -/
def pixelToCellSpec (x y imageWidth cellSize : Int) : Int :=
  let columnsPerRow := max 1 (imageWidth.tdiv cellSize)
  (y.tdiv cellSize) * columnsPerRow + x.tdiv cellSize

/-- Division that signals a zero divisor instead of returning a junk value,
used to show the mappers never divide by zero on their supported domain. -/
def tdivChecked (a b : Int) : Option Int :=
  if b = 0 then none else some (a.tdiv b)

/-- Remainder that signals a zero divisor instead of returning a junk value. -/
def tmodChecked (a b : Int) : Option Int :=
  if b = 0 then none else some (a.tmod b)

/-- CellToPixel with every division and remainder routed through the
checked operations; returns none iff some divisor is zero. -/
def CellToPixelChecked (cellNumber imageWidth cellSize : Int) :
    Option (Except String (Int × Int)) :=
  if cellNumber < 0 then
    some (Except.error ("invalid cell number"))
  else do
    let columnsPerRow0 ← tdivChecked imageWidth cellSize
    let columnsPerRow := if columnsPerRow0 = 0 then 1 else columnsPerRow0
    let gridX ← tmodChecked cellNumber columnsPerRow
    let gridY ← tdivChecked cellNumber columnsPerRow
    let half ← tdivChecked cellSize 2
    some (Except.ok (gridX * cellSize + half, gridY * cellSize + half))

/-- PixelToCell with every division routed through the checked operations;
returns none iff some divisor is zero. -/
def PixelToCellChecked (x y imageWidth cellSize : Int) : Option Int := do
  let columnsPerRow0 ← tdivChecked imageWidth cellSize
  let columnsPerRow := if columnsPerRow0 = 0 then 1 else columnsPerRow0
  let gridX ← tdivChecked x cellSize
  let gridY ← tdivChecked y cellSize
  some (gridY * columnsPerRow + gridX)

/-! ## GridRenderer: the cell-numbering loop of AddGrid

AddGrid (imgrid.go lines 64-78) runs
for gridY := 0; gridY*cellSize < height; gridY++ and inside it
for gridX := 0; gridX*cellSize < width; gridX++, giving each visited
(gridY, gridX) the next sequential cellNumber starting at 0.  The loop
counters are nonnegative throughout, so the loop is modelled over Nat.
The termination fuel limit+1 covers every iteration the Go loop performs
whenever cellSize is at least 1 (with cellSize = 0 and a positive limit
the Go loop would not terminate at all). -/

/-- The ascending list of counter values g, starting from the given g,
with g * cellSize < limit (the Go loop's condition), bounded by fuel. -/
def cellsAux : Nat → Nat → Nat → Nat → List Nat
  | 0, _, _, _ => []
  | fuel + 1, g, limit, cellSize =>
      if g * cellSize < limit then g :: cellsAux fuel (g + 1) limit cellSize else []

/-- All counter values one of AddGrid's grid loops visits: every g with
g * cellSize < limit, in increasing order from 0. -/
def gridIndices (limit cellSize : Nat) : List Nat :=
  cellsAux (limit + 1) 0 limit cellSize

/-- The cells AddGrid's numbering loop enumerates, as (gridY, gridX) pairs
in visit order; the sequential cellNumber of a cell is its position in
this list, and the final value of cellNumber is its length. -/
def enumCells (width height cellSize : Nat) : List (Nat × Nat) :=
  (gridIndices height cellSize).flatMap fun gridY =>
    (gridIndices width cellSize).map fun gridX => (gridY, gridX)

/-- The center AddGrid computes for the cell at (gridY, gridX):
(gridX * cellSize + cellSize / 2, gridY * cellSize + cellSize / 2). -/
def cellCenter (cellSize gridX gridY : Nat) : Nat × Nat :=
  (gridX * cellSize + cellSize / 2, gridY * cellSize + cellSize / 2)

/-- AddGrid's guard before drawing a label: the cell center must lie
strictly within the image (centerX < width and centerY < height). -/
def labelDrawn (width height cellSize gridX gridY : Nat) : Bool :=
  decide ((cellCenter cellSize gridX gridY).1 < width) &&
    decide ((cellCenter cellSize gridX gridY).2 < height)

/-! ## GridRenderer: canvas model and the line-drawing phase of AddGrid -/

/-- A pixel canvas: a total assignment of pixel values to integer
coordinates.  AddGrid first copies the source image pixel-for-pixel into
the overlay, so the line phase starts from the source canvas itself. -/
abbrev Canvas (π : Type) := Int → Int → π

/-- One Set call on the canvas: the write lands iff the written coordinate
is inside the canvas rectangle (the Go image Set silently drops writes
outside the rectangle), it overwrites rather than blends, and only the
written coordinate changes. -/
def setPix {π : Type} (W H : Int) (c : Canvas π) (x y : Int) (v : π) : Canvas π :=
  fun px py =>
    if (0 ≤ x ∧ x < W ∧ 0 ≤ y ∧ y < H) ∧ px = x ∧ py = y then v else c px py

/-- The values 0, 1, ..., n-1 over Int: what a Go loop of the shape
for j := 0; j < n; j++ visits. -/
def intRange (n : Int) : List Int :=
  (List.range n.toNat).map Int.ofNat

/-- The values of a Go loop of the shape for x := start; x < limit;
x += step, bounded by fuel. -/
def linePosAux : Nat → Int → Int → Int → List Int
  | 0, _, _, _ => []
  | fuel + 1, x, limit, step =>
      if x < limit then x :: linePosAux fuel (x + step) limit step else []

/-- The grid line positions cellSize, 2 * cellSize, ... strictly below the
limit; the fuel limit.toNat covers every iteration of the Go loop whenever
the step is at least 1. -/
def linePositions (limit step : Int) : List Int :=
  linePosAux limit.toNat step limit step

/-- Vertical line phase of AddGrid (imgrid.go lines 46-53): for each line
position x and each y in [0, height), paint lineWidth pixels leftward from
x; the inner loop runs while i < lineWidth and x - i >= 0, that is for i
in [0, min lineWidth (x + 1)). -/
def drawVerticalLines {π : Type} (W H cellSize lineWidth : Int) (v : π) (c : Canvas π) :
    Canvas π :=
  (linePositions W cellSize).foldl (fun c x =>
    (intRange H).foldl (fun c y =>
      (intRange (min lineWidth (x + 1))).foldl (fun c i =>
        setPix W H c (x - i) y v) c) c) c

/-- Horizontal line phase of AddGrid (imgrid.go lines 56-62): bands of
lineWidth pixels extending upward from each horizontal line position. -/
def drawHorizontalLines {π : Type} (W H cellSize lineWidth : Int) (v : π) (c : Canvas π) :
    Canvas π :=
  (linePositions H cellSize).foldl (fun c y =>
    (intRange W).foldl (fun c x =>
      (intRange (min lineWidth (y + 1))).foldl (fun c i =>
        setPix W H c x (y - i) v) c) c) c

/-- The canvas after AddGrid's whole line-drawing phase and before any
label: the copied source, then vertical lines, then horizontal lines. -/
def afterGridLines {π : Type} (W H cellSize lineWidth : Int) (v : π) (src : Canvas π) :
    Canvas π :=
  drawHorizontalLines W H cellSize lineWidth v (drawVerticalLines W H cellSize lineWidth v src)

/-- The claim's vertical band condition: px lies within lineWidth pixels
leftward (line position inclusive) of a vertical grid line k * cellSize
with k >= 1 that is strictly inside the width. -/
def onVerticalBand (W cellSize lineWidth px : Int) : Prop :=
  ∃ k : Int, 1 ≤ k ∧ k * cellSize < W ∧ k * cellSize - lineWidth < px ∧ px ≤ k * cellSize

/-- The claim's horizontal band condition: py lies within lineWidth pixels
upward (line position inclusive) of a horizontal grid line k * cellSize
with k >= 1 that is strictly inside the height. -/
def onHorizontalBand (H cellSize lineWidth py : Int) : Prop :=
  ∃ k : Int, 1 ≤ k ∧ k * cellSize < H ∧ k * cellSize - lineWidth < py ∧ py ≤ k * cellSize

/-! ## GridRenderer: drawLargeNumber -/

/-- The decimal digit string fmt produces for a Go int: a minus sign
followed by the digits for negative numbers, plain digits otherwise. -/
def intDigits (n : Int) : List Char :=
  if n < 0 then '-' :: Nat.toDigits 10 n.natAbs else Nat.toDigits 10 n.toNat

/-- Embedding of Go getDigitPattern (imgrid.go lines 126-224): the fixed
5 x 7 bitmap for each digit character, the empty pattern otherwise. -/
def getDigitPattern (digit : Char) : List String :=
  if digit = '0' then
    [" ### ", "#   #", "#   #", "#   #", "#   #", "#   #", " ### "]
  else if digit = '1' then
    ["  #  ", " ##  ", "  #  ", "  #  ", "  #  ", "  #  ", "#####"]
  else if digit = '2' then
    [" ### ", "#   #", "    #", "   # ", "  #  ", " #   ", "#####"]
  else if digit = '3' then
    [" ### ", "#   #", "    #", "  ## ", "    #", "#   #", " ### "]
  else if digit = '4' then
    ["   # ", "  ## ", " # # ", "#  # ", "#####", "   # ", "   # "]
  else if digit = '5' then
    ["#####", "#    ", "#    ", "#### ", "    #", "#   #", " ### "]
  else if digit = '6' then
    [" ### ", "#   #", "#    ", "#### ", "#   #", "#   #", " ### "]
  else if digit = '7' then
    ["#####", "    #", "   # ", "  #  ", " #   ", " #   ", " #   "]
  else if digit = '8' then
    [" ### ", "#   #", "#   #", " ### ", "#   #", "#   #", " ### "]
  else if digit = '9' then
    [" ### ", "#   #", "#   #", " ####", "    #", "#   #", " ### "]
  else []

/-- Total width of the label block drawLargeNumber computes:
digit count times digit width, plus spacing between digits, plus padding
on both sides (digitWidth = 5 * scale, spacing = padding = 2 * scale). -/
def labelTotalWidth (numberScale number : Int) : Int :=
  ((intDigits number).length : Int) * (5 * numberScale) +
    (((intDigits number).length : Int) - 1) * (2 * numberScale) + 2 * (2 * numberScale)

/-- Total height of the label block: digit height 7 * scale plus padding
on both sides. -/
def labelTotalHeight (numberScale : Int) : Int :=
  7 * numberScale + 2 * (2 * numberScale)

/-- Left edge of the label block, centering it on x. -/
def labelStartX (numberScale x number : Int) : Int :=
  x - (labelTotalWidth numberScale number).tdiv 2

/-- Top edge of the label block, centering it on y. -/
def labelStartY (numberScale y : Int) : Int :=
  y - (labelTotalHeight numberScale).tdiv 2

/-- One scaled glyph dot: the numberScale x numberScale block of guarded
pixel writes drawLargeNumber performs for one on glyph cell. -/
def drawDot {π : Type} (W H : Int) (colr : π) (scale px0 py0 : Int) (c : Canvas π) :
    Canvas π :=
  (intRange scale).foldl (fun c sx =>
    (intRange scale).foldl (fun c sy => setPix W H c (px0 + sx) (py0 + sy) colr) c) c

/-- The glyph-cell loop over one bitmap row: a scaled dot for each
character that is a hash mark, at column positions colI, colI + 1, .... -/
def drawGlyphCols {π : Type} (W H : Int) (colr : π) (scale digitX rowY : Int) :
    List Char → Int → Canvas π → Canvas π
  | [], _, c => c
  | ch :: rest, colI, c =>
      drawGlyphCols W H colr scale digitX rowY rest (colI + 1)
        (if ch = '#' then drawDot W H colr scale (digitX + colI * scale) rowY c else c)

/-- The row loop over one digit's bitmap pattern. -/
def drawGlyphRows {π : Type} (W H : Int) (colr : π) (scale digitX digitY : Int) :
    List String → Int → Canvas π → Canvas π
  | [], _, c => c
  | line :: rest, rowI, c =>
      drawGlyphRows W H colr scale digitX digitY rest (rowI + 1)
        (drawGlyphCols W H colr scale digitX (digitY + rowI * scale) line.toList 0 c)

/-- The digit loop of drawLargeNumber: digit i is drawn at
startX + padding + i * (digitWidth + spacing), startY + padding. -/
def drawDigits {π : Type} (W H : Int) (colr : π)
    (scale startX startY padding digitWidth spacing : Int) :
    List Char → Int → Canvas π → Canvas π
  | [], _, c => c
  | d :: rest, i, c =>
      drawDigits W H colr scale startX startY padding digitWidth spacing rest (i + 1)
        (drawGlyphRows W H colr scale (startX + padding + i * (digitWidth + spacing))
          (startY + padding) (getDigitPattern d) 0 c)

/-- Embedding of Go drawLargeNumber (imgrid.go lines 227-279): the filled
background rectangle of the label block centered on (x, y), then each
decimal digit's scaled glyph on top.  Every write is guarded by the
explicit canvas-bounds check of the source. -/
def drawLargeNumber {π : Type} (W H : Int) (numberColor numberBG : π) (numberScale : Int)
    (img : Canvas π) (x y number : Int) : Canvas π :=
  let numStr := intDigits number
  let digitWidth := 5 * numberScale
  let spacing := 2 * numberScale
  let padding := 2 * numberScale
  let totalWidth := labelTotalWidth numberScale number
  let totalHeight := labelTotalHeight numberScale
  let startX := labelStartX numberScale x number
  let startY := labelStartY numberScale y
  let bg := (intRange totalWidth).foldl (fun c dx =>
    (intRange totalHeight).foldl (fun c dy =>
      setPix W H c (startX + dx) (startY + dy) numberBG) c) img
  drawDigits W H numberColor numberScale startX startY padding digitWidth spacing numStr 0 bg

/-- A canvas transformer only writes in-bounds pixels within the region R:
wherever its output differs from its input, the pixel is inside the canvas
rectangle and satisfies R. -/
def WritesInside {π : Type} (W H : Int) (f : Canvas π → Canvas π)
    (R : Int → Int → Prop) : Prop :=
  ∀ c px py, f c px py ≠ c px py → (0 ≤ px ∧ px < W ∧ 0 ≤ py ∧ py < H) ∧ R px py

/-! ## Helper lemmas about truncated division -/

/-- Truncated division recovers the quotient from a base-times-quotient
plus small remainder decomposition, for nonnegative data. -/
theorem tdiv_mul_add_eq {a r cs : Int} (ha : 0 ≤ a) (hr : 0 ≤ r) (hrcs : r < cs) :
    (a * cs + r).tdiv cs = a := by
  have hcs : 0 < cs := lt_of_le_of_lt hr hrcs
  have hx : 0 ≤ a * cs + r := by positivity
  rw [Int.tdiv_eq_ediv hx (le_of_lt hcs)]
  rw [add_comm, Int.add_mul_ediv_right r a (ne_of_gt hcs)]
  rw [Int.ediv_eq_zero_of_lt hr hrcs, zero_add]

/-- The columnsPerRow value computed by both mappers is at least 1 whenever
the image width is nonnegative and the cell size is positive. -/
theorem columnsPerRow_pos {w cs : Int} (hw : 0 ≤ w) (hcs : 0 < cs) :
    1 ≤ (if w.tdiv cs = 0 then 1 else w.tdiv cs) := by
  have hq : 0 ≤ w.tdiv cs := Int.tdiv_nonneg hw (le_of_lt hcs)
  by_cases h : w.tdiv cs = 0
  · simp [h]
  · simp only [h, if_false]
    omega

/-- For nonnegative image width and positive cell size, the code's
columnsPerRow (quotient, replaced by 1 when zero) coincides with the spec's
max 1 (quotient). -/
theorem columnsPerRow_eq_max {w cs : Int} (hw : 0 ≤ w) (hcs : 0 < cs) :
    (if w.tdiv cs = 0 then 1 else w.tdiv cs) = max 1 (w.tdiv cs) := by
  have hq : 0 ≤ w.tdiv cs := Int.tdiv_nonneg hw (le_of_lt hcs)
  by_cases h : w.tdiv cs = 0
  · simp [h]
  · simp only [h, if_false]
    omega

/-- C3 (amended): for every cellIndex at least 0, cellSize above 0, and
nonnegative imageWidth, CellToPixel returns exactly the spec formula with
columnsPerRow = max 1 (imageWidth / cellSize), col = cellIndex mod
columnsPerRow, row = cellIndex / columnsPerRow, center
(col * cellSize + cellSize / 2, row * cellSize + cellSize / 2). -/
theorem cellToPixel_eq_spec_formula (n w cs : Int)
    (hn : 0 ≤ n) (hcs : 0 < cs) (hw : 0 ≤ w) :
    CellToPixel n w cs = Except.ok (cellToPixelSpec n w cs) := by
  simp only [CellToPixel, cellToPixelSpec]
  rw [if_neg (not_lt.mpr hn), columnsPerRow_eq_max hw hcs]

/-- C3 counterexample: at cellIndex 2, imageWidth -100, cellSize 50 the
code result (25, -25) differs from the spec formula result (25, 125):
the code keeps the negative quotient -2 as columnsPerRow instead of
clamping it to 1 as max would. -/
theorem cellToPixel_spec_formula_fails_negative_width :
    CellToPixel 2 (-100) 50 = Except.ok (25, -25) ∧
      cellToPixelSpec 2 (-100) 50 = (25, 125) ∧
      CellToPixel 2 (-100) 50 ≠ Except.ok (cellToPixelSpec 2 (-100) 50) := by
  refine ⟨rfl, by decide, ?_⟩
  intro h
  rw [show CellToPixel 2 (-100) 50 = Except.ok (25, -25) from rfl] at h
  exact absurd (Except.ok.inj h) (by decide)

/-- C3 witness: the amended theorem applied at the spec's three concrete
examples, CellToPixel (0, 100, 50) = (25, 25), (1, 100, 50) = (75, 25),
(2, 100, 50) = (25, 75). -/
theorem cellToPixel_eq_spec_formula_witness :
    CellToPixel 0 100 50 = Except.ok (25, 25) ∧
      CellToPixel 1 100 50 = Except.ok (75, 25) ∧
      CellToPixel 2 100 50 = Except.ok (25, 75) := by
  refine ⟨?_, ?_, ?_⟩
  · rw [cellToPixel_eq_spec_formula 0 100 50 (by decide) (by decide) (by decide)]
    rfl
  · rw [cellToPixel_eq_spec_formula 1 100 50 (by decide) (by decide) (by decide)]
    rfl
  · rw [cellToPixel_eq_spec_formula 2 100 50 (by decide) (by decide) (by decide)]
    rfl

/-- C4 (amended): for every x, y (negative values included), every
cellSize above 0 and every nonnegative imageWidth, PixelToCell returns
row * columnsPerRow + col with columnsPerRow = max 1 (imageWidth /
cellSize), col = x / cellSize, row = y / cellSize (truncated division). -/
theorem pixelToCell_eq_spec_formula (x y w cs : Int)
    (hcs : 0 < cs) (hw : 0 ≤ w) :
    PixelToCell x y w cs = pixelToCellSpec x y w cs := by
  simp only [PixelToCell, pixelToCellSpec]
  rw [columnsPerRow_eq_max hw hcs]

/-- C4 counterexample: at x = 0, y = 50, imageWidth = -100, cellSize = 50
the code returns -2 (columnsPerRow stays -2) while the spec formula with
max 1 (imageWidth / cellSize) gives 1. -/
theorem pixelToCell_spec_formula_fails_negative_width :
    PixelToCell 0 50 (-100) 50 = -2 ∧ pixelToCellSpec 0 50 (-100) 50 = 1 ∧
      PixelToCell 0 50 (-100) 50 ≠ pixelToCellSpec 0 50 (-100) 50 := by
  refine ⟨by decide, by decide, by decide⟩

/-- C4 witness: the amended theorem applied at the spec's concrete example
PixelToCell (250, 150, 600, 100) = 8, and at a negative coordinate. -/
theorem pixelToCell_eq_spec_formula_witness :
    PixelToCell 250 150 600 100 = 8 ∧ PixelToCell (-150) 0 600 100 = -1 := by
  constructor
  · rw [pixelToCell_eq_spec_formula 250 150 600 100 (by decide) (by decide)]
    decide
  · rw [pixelToCell_eq_spec_formula (-150) 0 600 100 (by decide) (by decide)]
    decide

/-- C5: on the supported domain cellSize above 0, CellToPixel fails exactly
when the cell index is negative: a negative index yields the
invalid-cell-number error, and every nonnegative index (with no upper
bound) yields a successful coordinate pair. -/
theorem cellToPixel_fails_iff_negative (n w cs : Int) (_hcs : 0 < cs) :
    (n < 0 → CellToPixel n w cs = Except.error ("invalid cell number")) ∧
      (0 ≤ n → ∃ p, CellToPixel n w cs = Except.ok p) := by
  constructor
  · intro hn
    unfold CellToPixel
    rw [if_pos hn]
  · intro hn
    unfold CellToPixel
    rw [if_neg (not_lt.mpr hn)]
    exact ⟨_, rfl⟩

/-- C5 witness: the failure half at cellIndex -1 and the success half at
the very large cellIndex 1000000 with image width 100, cell size 50. -/
theorem cellToPixel_fails_iff_negative_witness :
    CellToPixel (-1) 100 50 = Except.error ("invalid cell number") ∧
      ∃ p, CellToPixel 1000000 100 50 = Except.ok p := by
  exact ⟨(cellToPixel_fails_iff_negative (-1) 100 50 (by decide)).1 (by decide),
    (cellToPixel_fails_iff_negative 1000000 100 50 (by decide)).2 (by decide)⟩

/-- C10: for every cellSize at least 1 and all integer values of the other
arguments, both mappers agree with their fully checked variants, in which
every division or remainder reports a zero divisor; hence no division by
zero occurs: every divisor is cellSize, the literal 2, or columnsPerRow,
which is nonzero because a zero quotient is replaced by 1. -/
theorem mappers_no_division_by_zero (n x y w cs : Int) (hcs : 1 ≤ cs) :
    CellToPixelChecked n w cs = some (CellToPixel n w cs) ∧
      PixelToCellChecked x y w cs = some (PixelToCell x y w cs) := by
  have hcs0 : cs ≠ 0 := by omega
  have hcpr : (if w.tdiv cs = 0 then 1 else w.tdiv cs) ≠ 0 := by
    by_cases h : w.tdiv cs = 0 <;> simp [h]
  constructor
  · unfold CellToPixelChecked CellToPixel
    by_cases hn : n < 0
    · rw [if_pos hn, if_pos hn]
    · rw [if_neg hn, if_neg hn]
      simp only [tdivChecked, tmodChecked, hcs0, if_false, hcpr,
        Option.bind_eq_bind, Option.some_bind]
      norm_num
  · unfold PixelToCellChecked PixelToCell
    simp only [tdivChecked, hcs0, if_false, Option.bind_eq_bind, Option.some_bind]

/-- C2: round-trip identity.  For every cellIndex at least 0 and cellSize
above 0, if CellToPixel (cellIndex, W, cellSize) succeeds with a pixel
(x, y) and x lies within an image of width W, then PixelToCell (x, y, W,
cellSize) returns cellIndex. -/
theorem pixelToCell_cellToPixel_roundtrip (n w cs x y : Int)
    (hn : 0 ≤ n) (hcs : 0 < cs)
    (hok : CellToPixel n w cs = Except.ok (x, y)) (hxw : x < w) :
    PixelToCell x y w cs = n := by
  simp only [CellToPixel, if_neg (not_lt.mpr hn)] at hok
  set c : Int := if w.tdiv cs = 0 then 1 else w.tdiv cs with hc
  obtain ⟨hx, hy⟩ : n.tmod c * cs + cs.tdiv 2 = x ∧ n.tdiv c * cs + cs.tdiv 2 = y := by
    have h := Except.ok.inj hok
    exact ⟨congrArg Prod.fst h, congrArg Prod.snd h⟩
  have hhalf0 : 0 ≤ cs.tdiv 2 := Int.tdiv_nonneg (le_of_lt hcs) (by decide)
  have hhalf1 : cs.tdiv 2 < cs := by
    rw [Int.tdiv_eq_ediv (le_of_lt hcs) (by decide)]
    omega
  have hmod0 : 0 ≤ n.tmod c := Int.tmod_nonneg c hn
  have hx0 : 0 ≤ x := by
    rw [← hx]
    positivity
  have hw : 0 < w := lt_of_le_of_lt hx0 hxw
  have hcpos : 1 ≤ c := columnsPerRow_pos (le_of_lt hw) hcs
  have hdiv0 : 0 ≤ n.tdiv c := Int.tdiv_nonneg hn (by omega)
  have hgx : x.tdiv cs = n.tmod c := by
    rw [← hx]
    exact tdiv_mul_add_eq hmod0 hhalf0 hhalf1
  have hgy : y.tdiv cs = n.tdiv c := by
    rw [← hy]
    exact tdiv_mul_add_eq hdiv0 hhalf0 hhalf1
  simp only [PixelToCell, ← hc, hgx, hgy]
  rw [mul_comm]
  exact Int.tdiv_add_tmod n c

/-- C2 witness: the round trip at cellIndex 7 with image width 600 and
cell size 100: CellToPixel gives (150, 150), inside the width, and
PixelToCell maps it back to 7. -/
theorem pixelToCell_cellToPixel_roundtrip_witness :
    CellToPixel 7 600 100 = Except.ok (150, 150) ∧
      PixelToCell 150 150 600 100 = 7 := by
  exact ⟨rfl, pixelToCell_cellToPixel_roundtrip 7 600 100 150 150
    (by decide) (by decide) rfl (by decide)⟩

/-- Length of the tail of a grid loop from counter g: the number of g
values still satisfying g * cellSize < limit, provided the fuel covers
the remaining iterations. -/
theorem cellsAux_length {cs : Nat} (hcs : 1 ≤ cs) :
    ∀ fuel g limit : Nat, limit ≤ g * cs + fuel * cs →
      (cellsAux fuel g limit cs).length = (limit + cs - 1) / cs - g := by
  intro fuel
  induction fuel with
  | zero =>
    intro g limit h
    simp only [cellsAux, List.length_nil]
    have h2 : limit + cs - 1 < (g + 1) * cs := by
      have e : (g + 1) * cs = g * cs + cs := by ring
      omega
    have h3 : (limit + cs - 1) / cs < g + 1 := (Nat.div_lt_iff_lt_mul (by omega)).mpr h2
    omega
  | succ fuel ih =>
    intro g limit h
    by_cases hcond : g * cs < limit
    · simp only [cellsAux, if_pos hcond, List.length_cons]
      have hrec : limit ≤ (g + 1) * cs + fuel * cs := by
        have e : (g + 1) * cs + fuel * cs = g * cs + (fuel + 1) * cs := by ring
        omega
      rw [ih (g + 1) limit hrec]
      have hle : g + 1 ≤ (limit + cs - 1) / cs := by
        rw [Nat.le_div_iff_mul_le (by omega)]
        have e : (g + 1) * cs = g * cs + cs := by ring
        omega
      omega
    · simp only [cellsAux, if_neg hcond, List.length_nil]
      have h2 : limit + cs - 1 < (g + 1) * cs := by
        have e : (g + 1) * cs = g * cs + cs := by ring
        omega
      have h3 : (limit + cs - 1) / cs < g + 1 := (Nat.div_lt_iff_lt_mul (by omega)).mpr h2
      omega

/-- A grid loop over a positive cell size performs exactly the ceiling of
limit / cellSize iterations. -/
theorem gridIndices_length {cs : Nat} (hcs : 1 ≤ cs) (limit : Nat) :
    (gridIndices limit cs).length = (limit + cs - 1) / cs := by
  have h1 : (limit + 1) * 1 ≤ (limit + 1) * cs := Nat.mul_le_mul_left _ hcs
  simp only [mul_one] at h1
  have hfuel : limit ≤ 0 * cs + (limit + 1) * cs := by omega
  rw [gridIndices, cellsAux_length hcs (limit + 1) 0 limit hfuel, Nat.sub_zero]

/-- Length of a rectangular nested enumeration. -/
theorem length_bind_map {α β γ : Type} (l : List α) (m : List β) (f : α → β → γ) :
    (l.flatMap fun a => m.map (f a)).length = l.length * m.length := by
  induction l with
  | nil => simp
  | cons a t ih => simp [ih, Nat.succ_mul, Nat.add_comm]

/-- C7: total cell count.  For every cellSize above 0 and image of width W
and height H, the number of cells enumerated by AddGrid's row-major
numbering loop (the final value of cellNumber) is
ceil(H / cellSize) * ceil(W / cellSize). -/
theorem addGrid_cell_count (w h cs : Nat) (hcs : 0 < cs) :
    (enumCells w h cs).length = ((h + cs - 1) / cs) * ((w + cs - 1) / cs) := by
  rw [enumCells, length_bind_map, gridIndices_length hcs, gridIndices_length hcs]

/-- C7 witness: a 150 x 200 image with cellSize 100 enumerates
ceil(200/100) * ceil(150/100) = 2 * 2 = 4 cells. -/
theorem addGrid_cell_count_witness :
    (enumCells 150 200 100).length = ((200 + 100 - 1) / 100) * ((150 + 100 - 1) / 100) ∧
      (enumCells 150 200 100).length = 4 :=
  ⟨addGrid_cell_count 150 200 100 (by decide), by decide⟩

/-- A grid loop whose limit is positive but at most the cell size visits
exactly the single counter value 0. -/
theorem gridIndices_single {limit cs : Nat} (h0 : 0 < limit) (hle : limit ≤ cs) :
    gridIndices limit cs = [0] := by
  obtain ⟨m, rfl⟩ : ∃ m, limit = m + 1 := ⟨limit - 1, by omega⟩
  have h1 : 0 * cs < m + 1 := by omega
  have h2 : ¬ (1 * cs < m + 1) := by omega
  show cellsAux (m + 2) 0 (m + 1) cs = [0]
  simp only [cellsAux, if_pos h1, if_neg h2]

/-- C6 (amended): degenerate configuration.  For width, height above 0 and
cellSize at least both dimensions, AddGrid enumerates exactly one cell,
cell 0; its label is drawn iff cellSize / 2 is inside both dimensions, and
it is centered at (cellSize / 2, cellSize / 2) — the cell center, which
coincides with the image center only when cellSize equals the dimensions. -/
theorem addGrid_degenerate_single_cell (w h cs : Nat)
    (hw : 0 < w) (hh : 0 < h) (hwcs : w ≤ cs) (hhcs : h ≤ cs) :
    enumCells w h cs = [(0, 0)] ∧
      cellCenter cs 0 0 = (cs / 2, cs / 2) ∧
      (labelDrawn w h cs 0 0 = true ↔ cs / 2 < w ∧ cs / 2 < h) := by
  refine ⟨?_, ?_, ?_⟩
  · rw [enumCells, gridIndices_single hh hhcs, gridIndices_single hw hwcs]
    rfl
  · simp [cellCenter]
  · simp [labelDrawn, cellCenter]

/-- C6 counterexample: with a 10 x 10 image and cellSize 15 exactly one
cell is enumerated and its label is drawn, but it is centered at the cell
center (7, 7), not at the image center (10 / 2, 10 / 2) = (5, 5). -/
theorem addGrid_degenerate_label_off_image_center :
    enumCells 10 10 15 = [(0, 0)] ∧ labelDrawn 10 10 15 0 0 = true ∧
      cellCenter 15 0 0 = (7, 7) ∧ cellCenter 15 0 0 ≠ (10 / 2, 10 / 2) := by
  refine ⟨by decide, by decide, by decide, by decide⟩

/-- C6 witness: the amended theorem at width = height = cellSize = 10,
where the cell center and the image center coincide. -/
theorem addGrid_degenerate_single_cell_witness :
    enumCells 10 10 10 = [(0, 0)] ∧
      cellCenter 10 0 0 = (10 / 2, 10 / 2) ∧
      (labelDrawn 10 10 10 0 0 = true ↔ 10 / 2 < 10 ∧ 10 / 2 < 10) :=
  addGrid_degenerate_single_cell 10 10 10 (by decide) (by decide) (by decide) (by decide)

/-- C1 evaluated at the failing input: in a 150 x 200 image with cellSize
100 the numbering loop gives the cell at gridY = 1, gridX = 0 the
sequential number 2 (AddGrid fits 2 cells per row, the ceiling of
150 / 100); its center (50, 150) is drawn, yet PixelToCell (50, 150, 150,
100) returns 1, because PixelToCell uses columnsPerRow = floor of
150 / 100 = 1.  The cross-component numbering consistency fails. -/
theorem addGrid_pixelToCell_numbering_mismatch :
    (enumCells 150 200 100)[2]? = some (1, 0) ∧
      cellCenter 100 0 1 = (50, 150) ∧
      labelDrawn 150 200 100 0 1 = true ∧
      PixelToCell 50 150 150 100 = 1 ∧
      PixelToCell 50 150 150 100 ≠ 2 := by
  refine ⟨by decide, by decide, by decide, by decide, by decide⟩

/-- C10 witness: the checked and unchecked mappers agree at concrete
arguments with cellSize 10. -/
theorem mappers_no_division_by_zero_witness :
    CellToPixelChecked 5 100 10 = some (CellToPixel 5 100 10) ∧
      PixelToCellChecked 7 3 100 10 = some (PixelToCell 7 3 100 10) :=
  mappers_no_division_by_zero 5 7 3 100 10 (by decide)

/-! ## Lemmas for the line-drawing phase -/

/-- Folding a uniform-colour write step over a list: the result at a
query point is the colour if some visited element writes there, and the
original canvas value if none does. -/
theorem foldl_pointwise {π α : Type} (step : Canvas π → α → Canvas π)
    (Q : α → Int → Int → Prop) (v : π)
    (hhit : ∀ a c px py, Q a px py → step c a px py = v)
    (hmiss : ∀ a c px py, ¬ Q a px py → step c a px py = c px py) :
    ∀ (l : List α) (c : Canvas π) (px py : Int),
      ((∃ a ∈ l, Q a px py) → (l.foldl step c) px py = v) ∧
        ((∀ a ∈ l, ¬ Q a px py) → (l.foldl step c) px py = c px py) := by
  intro l
  induction l with
  | nil =>
    intro c px py
    constructor
    · rintro ⟨a, ha, -⟩
      exact absurd ha (List.not_mem_nil a)
    · intro _
      rfl
  | cons a t ih =>
    intro c px py
    constructor
    · rintro ⟨b, hb, hq⟩
      simp only [List.foldl_cons]
      rcases List.mem_cons.mp hb with rfl | hbt
      · by_cases hex : ∃ z ∈ t, Q z px py
        · exact (ih (step c b) px py).1 hex
        · push_neg at hex
          rw [(ih (step c b) px py).2 hex]
          exact hhit b c px py hq
      · exact (ih (step c a) px py).1 ⟨b, hbt, hq⟩
    · intro hall
      simp only [List.foldl_cons]
      rw [(ih (step c a) px py).2 fun z hz => hall z (List.mem_cons_of_mem a hz)]
      exact hmiss a c px py (hall a (List.mem_cons_self a t))

/-- Membership in an integer range list. -/
theorem mem_intRange {n z : Int} : z ∈ intRange n ↔ 0 ≤ z ∧ z < n := by
  unfold intRange
  rw [List.mem_map]
  constructor
  · rintro ⟨m, hm, rfl⟩
    rw [List.mem_range] at hm
    simp only [Int.ofNat_eq_coe]
    omega
  · rintro ⟨h0, h1⟩
    refine ⟨z.toNat, List.mem_range.mpr (by omega), ?_⟩
    simp only [Int.ofNat_eq_coe]
    omega

/-- Membership in the stepped loop list, for a positive step: exactly the
values start + n * step below the limit that the fuel reaches. -/
theorem mem_linePosAux {limit step : Int} (hstep : 1 ≤ step) :
    ∀ (fuel : Nat) (x0 z : Int),
      z ∈ linePosAux fuel x0 limit step ↔
        ∃ n : Nat, n < fuel ∧ z = x0 + n * step ∧ z < limit := by
  intro fuel
  induction fuel with
  | zero =>
    intro x0 z
    simp [linePosAux]
  | succ fuel ih =>
    intro x0 z
    by_cases h : x0 < limit
    · simp only [linePosAux, if_pos h, List.mem_cons]
      constructor
      · rintro (rfl | hz)
        · exact ⟨0, by omega, by simp, h⟩
        · obtain ⟨n, hn, hzeq, hlt⟩ := (ih (x0 + step) z).mp hz
          refine ⟨n + 1, by omega, ?_, hlt⟩
          rw [hzeq]
          push_cast
          ring
      · rintro ⟨n, hn, hzeq, hlt⟩
        cases n with
        | zero =>
          left
          simpa using hzeq
        | succ m =>
          right
          rw [ih (x0 + step) z]
          refine ⟨m, by omega, ?_, hlt⟩
          rw [hzeq]
          push_cast
          ring
    · simp only [linePosAux, if_neg h, List.not_mem_nil, false_iff, not_exists]
      rintro n ⟨-, hzeq, hlt⟩
      have hn0 : 0 ≤ (n : Int) * step := by positivity
      omega

/-- Membership in the grid line position list: exactly the positive
multiples of the cell size strictly below the limit. -/
theorem mem_linePositions {W cs z : Int} (hcs : 1 ≤ cs) :
    z ∈ linePositions W cs ↔ ∃ k : Int, 1 ≤ k ∧ z = k * cs ∧ z < W := by
  rw [linePositions, mem_linePosAux hcs]
  constructor
  · rintro ⟨n, -, hzeq, hlt⟩
    refine ⟨(n : Int) + 1, by omega, ?_, hlt⟩
    rw [hzeq]
    ring
  · rintro ⟨k, hk, hzeq, hlt⟩
    have hkcs : k ≤ k * cs := le_mul_of_one_le_right (by omega) hcs
    refine ⟨(k - 1).toNat, by omega, ?_, hlt⟩
    have he : ((k - 1).toNat : Int) = k - 1 := by omega
    rw [hzeq, he]
    ring

/-- Pointwise description of the vertical line phase: the query point
holds the line colour if some visited write targets it, and the base
canvas value if none does. -/
theorem drawVerticalLines_apply {π : Type} (W H cs lw : Int) (v : π) (src : Canvas π)
    (px py : Int) :
    ((∃ x ∈ linePositions W cs, ∃ y ∈ intRange H, ∃ i ∈ intRange (min lw (x + 1)),
        (0 ≤ x - i ∧ x - i < W ∧ 0 ≤ y ∧ y < H) ∧ px = x - i ∧ py = y) →
      drawVerticalLines W H cs lw v src px py = v) ∧
    ((¬ ∃ x ∈ linePositions W cs, ∃ y ∈ intRange H, ∃ i ∈ intRange (min lw (x + 1)),
        (0 ≤ x - i ∧ x - i < W ∧ 0 ≤ y ∧ y < H) ∧ px = x - i ∧ py = y) →
      drawVerticalLines W H cs lw v src px py = src px py) := by
  have hinner : ∀ x y : Int, ∀ (c : Canvas π) (px py : Int),
      ((∃ i ∈ intRange (min lw (x + 1)),
          (0 ≤ x - i ∧ x - i < W ∧ 0 ≤ y ∧ y < H) ∧ px = x - i ∧ py = y) →
        ((intRange (min lw (x + 1))).foldl (fun c i => setPix W H c (x - i) y v) c) px py = v) ∧
      ((∀ i ∈ intRange (min lw (x + 1)),
          ¬ ((0 ≤ x - i ∧ x - i < W ∧ 0 ≤ y ∧ y < H) ∧ px = x - i ∧ py = y)) →
        ((intRange (min lw (x + 1))).foldl (fun c i => setPix W H c (x - i) y v) c) px py
          = c px py) := by
    intro x y
    refine foldl_pointwise _ (fun i px py =>
      (0 ≤ x - i ∧ x - i < W ∧ 0 ≤ y ∧ y < H) ∧ px = x - i ∧ py = y) v ?_ ?_ _
    · intro i c px py hq
      simp only [setPix, if_pos hq]
    · intro i c px py hq
      simp only [setPix, if_neg hq]
  have hmid : ∀ x : Int, ∀ (c : Canvas π) (px py : Int),
      ((∃ y ∈ intRange H, ∃ i ∈ intRange (min lw (x + 1)),
          (0 ≤ x - i ∧ x - i < W ∧ 0 ≤ y ∧ y < H) ∧ px = x - i ∧ py = y) →
        ((intRange H).foldl (fun c y =>
          (intRange (min lw (x + 1))).foldl (fun c i => setPix W H c (x - i) y v) c) c) px py
          = v) ∧
      ((∀ y ∈ intRange H, ¬ ∃ i ∈ intRange (min lw (x + 1)),
          (0 ≤ x - i ∧ x - i < W ∧ 0 ≤ y ∧ y < H) ∧ px = x - i ∧ py = y) →
        ((intRange H).foldl (fun c y =>
          (intRange (min lw (x + 1))).foldl (fun c i => setPix W H c (x - i) y v) c) c) px py
          = c px py) := by
    intro x
    refine foldl_pointwise _ (fun y px py => ∃ i ∈ intRange (min lw (x + 1)),
      (0 ≤ x - i ∧ x - i < W ∧ 0 ≤ y ∧ y < H) ∧ px = x - i ∧ py = y) v ?_ ?_ _
    · intro y c px py hq
      exact (hinner x y c px py).1 hq
    · intro y c px py hq
      refine (hinner x y c px py).2 ?_
      intro i hi hq2
      exact hq ⟨i, hi, hq2⟩
  have houter := foldl_pointwise
    (fun c x => (intRange H).foldl (fun c y =>
      (intRange (min lw (x + 1))).foldl (fun c i => setPix W H c (x - i) y v) c) c)
    (fun x px py => ∃ y ∈ intRange H, ∃ i ∈ intRange (min lw (x + 1)),
      (0 ≤ x - i ∧ x - i < W ∧ 0 ≤ y ∧ y < H) ∧ px = x - i ∧ py = y) v
    (fun x c px py hq => (hmid x c px py).1 hq)
    (fun x c px py hq => (hmid x c px py).2 fun y hy hex => hq ⟨y, hy, hex⟩)
    (linePositions W cs) src px py
  constructor
  · intro hq
    exact houter.1 hq
  · intro hq
    refine houter.2 ?_
    intro x hx hq2
    exact hq ⟨x, hx, hq2⟩

/-- Pointwise description of the horizontal line phase. -/
theorem drawHorizontalLines_apply {π : Type} (W H cs lw : Int) (v : π) (src : Canvas π)
    (px py : Int) :
    ((∃ y ∈ linePositions H cs, ∃ x ∈ intRange W, ∃ i ∈ intRange (min lw (y + 1)),
        (0 ≤ x ∧ x < W ∧ 0 ≤ y - i ∧ y - i < H) ∧ px = x ∧ py = y - i) →
      drawHorizontalLines W H cs lw v src px py = v) ∧
    ((¬ ∃ y ∈ linePositions H cs, ∃ x ∈ intRange W, ∃ i ∈ intRange (min lw (y + 1)),
        (0 ≤ x ∧ x < W ∧ 0 ≤ y - i ∧ y - i < H) ∧ px = x ∧ py = y - i) →
      drawHorizontalLines W H cs lw v src px py = src px py) := by
  have hinner : ∀ y x : Int, ∀ (c : Canvas π) (px py : Int),
      ((∃ i ∈ intRange (min lw (y + 1)),
          (0 ≤ x ∧ x < W ∧ 0 ≤ y - i ∧ y - i < H) ∧ px = x ∧ py = y - i) →
        ((intRange (min lw (y + 1))).foldl (fun c i => setPix W H c x (y - i) v) c) px py = v) ∧
      ((∀ i ∈ intRange (min lw (y + 1)),
          ¬ ((0 ≤ x ∧ x < W ∧ 0 ≤ y - i ∧ y - i < H) ∧ px = x ∧ py = y - i)) →
        ((intRange (min lw (y + 1))).foldl (fun c i => setPix W H c x (y - i) v) c) px py
          = c px py) := by
    intro y x
    refine foldl_pointwise _ (fun i px py =>
      (0 ≤ x ∧ x < W ∧ 0 ≤ y - i ∧ y - i < H) ∧ px = x ∧ py = y - i) v ?_ ?_ _
    · intro i c px py hq
      simp only [setPix, if_pos hq]
    · intro i c px py hq
      simp only [setPix, if_neg hq]
  have hmid : ∀ y : Int, ∀ (c : Canvas π) (px py : Int),
      ((∃ x ∈ intRange W, ∃ i ∈ intRange (min lw (y + 1)),
          (0 ≤ x ∧ x < W ∧ 0 ≤ y - i ∧ y - i < H) ∧ px = x ∧ py = y - i) →
        ((intRange W).foldl (fun c x =>
          (intRange (min lw (y + 1))).foldl (fun c i => setPix W H c x (y - i) v) c) c) px py
          = v) ∧
      ((∀ x ∈ intRange W, ¬ ∃ i ∈ intRange (min lw (y + 1)),
          (0 ≤ x ∧ x < W ∧ 0 ≤ y - i ∧ y - i < H) ∧ px = x ∧ py = y - i) →
        ((intRange W).foldl (fun c x =>
          (intRange (min lw (y + 1))).foldl (fun c i => setPix W H c x (y - i) v) c) c) px py
          = c px py) := by
    intro y
    refine foldl_pointwise _ (fun x px py => ∃ i ∈ intRange (min lw (y + 1)),
      (0 ≤ x ∧ x < W ∧ 0 ≤ y - i ∧ y - i < H) ∧ px = x ∧ py = y - i) v ?_ ?_ _
    · intro x c px py hq
      exact (hinner y x c px py).1 hq
    · intro x c px py hq
      refine (hinner y x c px py).2 ?_
      intro i hi hq2
      exact hq ⟨i, hi, hq2⟩
  have houter := foldl_pointwise
    (fun c y => (intRange W).foldl (fun c x =>
      (intRange (min lw (y + 1))).foldl (fun c i => setPix W H c x (y - i) v) c) c)
    (fun y px py => ∃ x ∈ intRange W, ∃ i ∈ intRange (min lw (y + 1)),
      (0 ≤ x ∧ x < W ∧ 0 ≤ y - i ∧ y - i < H) ∧ px = x ∧ py = y - i) v
    (fun y c px py hq => (hmid y c px py).1 hq)
    (fun y c px py hq => (hmid y c px py).2 fun x hx hex => hq ⟨x, hx, hex⟩)
    (linePositions H cs) src px py
  constructor
  · intro hq
    exact houter.1 hq
  · intro hq
    refine houter.2 ?_
    intro y hy hq2
    exact hq ⟨y, hy, hq2⟩

/-- For an in-bounds query point, the vertical phase writes it iff it lies
on a vertical band. -/
theorem vertical_hit_iff {W H cs lw px py : Int} (hcs : 0 < cs)
    (hpx : 0 ≤ px) (hpxW : px < W) (hpy : 0 ≤ py) (hpyH : py < H) :
    (∃ x ∈ linePositions W cs, ∃ y ∈ intRange H, ∃ i ∈ intRange (min lw (x + 1)),
        (0 ≤ x - i ∧ x - i < W ∧ 0 ≤ y ∧ y < H) ∧ px = x - i ∧ py = y) ↔
      onVerticalBand W cs lw px := by
  constructor
  · rintro ⟨x, hx, y, -, i, hi, ⟨-, -, -, -⟩, rfl, rfl⟩
    obtain ⟨k, hk, hxeq, hxW⟩ := (mem_linePositions hcs).mp hx
    obtain ⟨hi0, hilt⟩ := mem_intRange.mp hi
    refine ⟨k, hk, by omega, by omega, by omega⟩
  · rintro ⟨k, hk, hkW, hlo, hhi⟩
    refine ⟨k * cs, (mem_linePositions hcs).mpr ⟨k, hk, rfl, hkW⟩,
      py, mem_intRange.mpr ⟨hpy, hpyH⟩,
      k * cs - px, mem_intRange.mpr ⟨by omega, by omega⟩,
      ⟨by omega, by omega, hpy, hpyH⟩, by omega, rfl⟩

/-- For an in-bounds query point, the horizontal phase writes it iff it
lies on a horizontal band. -/
theorem horizontal_hit_iff {W H cs lw px py : Int} (hcs : 0 < cs)
    (hpx : 0 ≤ px) (hpxW : px < W) (hpy : 0 ≤ py) (hpyH : py < H) :
    (∃ y ∈ linePositions H cs, ∃ x ∈ intRange W, ∃ i ∈ intRange (min lw (y + 1)),
        (0 ≤ x ∧ x < W ∧ 0 ≤ y - i ∧ y - i < H) ∧ px = x ∧ py = y - i) ↔
      onHorizontalBand H cs lw py := by
  constructor
  · rintro ⟨y, hy, x, -, i, hi, ⟨-, -, -, -⟩, rfl, rfl⟩
    obtain ⟨k, hk, hyeq, hyH⟩ := (mem_linePositions hcs).mp hy
    obtain ⟨hi0, hilt⟩ := mem_intRange.mp hi
    refine ⟨k, hk, by omega, by omega, by omega⟩
  · rintro ⟨k, hk, hkH, hlo, hhi⟩
    refine ⟨k * cs, (mem_linePositions hcs).mpr ⟨k, hk, rfl, hkH⟩,
      px, mem_intRange.mpr ⟨hpx, hpxW⟩,
      k * cs - py, mem_intRange.mpr ⟨by omega, by omega⟩,
      ⟨hpx, hpxW, by omega, by omega⟩, rfl, by omega⟩

/-- C8: grid line placement.  After AddGrid's line-drawing phase (before
labels), an in-bounds pixel holds the grid colour (overwritten, not
blended) whenever it lies on a vertical or horizontal band, and still
holds the copied source pixel whenever it lies on neither. -/
theorem addGrid_line_phase {π : Type} (src : Canvas π) (v : π) (W H cs lw px py : Int)
    (hcs : 0 < cs) (_hlw : 0 ≤ lw)
    (hpx : 0 ≤ px) (hpxW : px < W) (hpy : 0 ≤ py) (hpyH : py < H) :
    ((onVerticalBand W cs lw px ∨ onHorizontalBand H cs lw py) →
      afterGridLines W H cs lw v src px py = v) ∧
    (¬ (onVerticalBand W cs lw px ∨ onHorizontalBand H cs lw py) →
      afterGridLines W H cs lw v src px py = src px py) := by
  have hv := drawVerticalLines_apply W H cs lw v src px py
  have hh := drawHorizontalLines_apply W H cs lw v
    (drawVerticalLines W H cs lw v src) px py
  have hviff := @vertical_hit_iff W H cs lw px py hcs hpx hpxW hpy hpyH
  have hhiff := @horizontal_hit_iff W H cs lw px py hcs hpx hpxW hpy hpyH
  constructor
  · rintro (hband | hband)
    · by_cases hhb : onHorizontalBand H cs lw py
      · exact hh.1 (hhiff.mpr hhb)
      · rw [afterGridLines, hh.2 fun hex => hhb (hhiff.mp hex)]
        exact hv.1 (hviff.mpr hband)
    · exact hh.1 (hhiff.mpr hband)
  · intro hband
    push_neg at hband
    rw [afterGridLines, hh.2 fun hex => hband.2 (hhiff.mp hex)]
    exact hv.2 fun hex => hband.1 (hviff.mp hex)

/-- C8 witness: a 10 x 10 canvas with cellSize 5 and lineWidth 2: pixel
(4, 0) sits on the vertical band of the line at x = 5 and receives the
grid colour 1, while pixel (1, 1) sits on no band and keeps the source
value 0. -/
theorem addGrid_line_phase_witness :
    afterGridLines 10 10 5 2 1 (fun _ _ => (0 : Nat)) 4 0 = 1 ∧
      afterGridLines 10 10 5 2 1 (fun _ _ => (0 : Nat)) 1 1 = 0 := by
  constructor
  · exact (addGrid_line_phase (fun _ _ => (0 : Nat)) 1 10 10 5 2 4 0
      (by decide) (by decide) (by decide) (by decide) (by decide) (by decide)).1
      (Or.inl ⟨1, by norm_num⟩)
  · refine (addGrid_line_phase (fun _ _ => (0 : Nat)) 1 10 10 5 2 1 1
      (by decide) (by decide) (by decide) (by decide) (by decide) (by decide)).2 ?_
    rintro (⟨k, hk, hkW, hlo, hhi⟩ | ⟨k, hk, hkH, hlo, hhi⟩) <;> omega

/-! ## Lemmas for drawLargeNumber -/

/-- A positive product with a nonnegative left factor has a positive right
factor. -/
theorem pos_of_mul_pos_left_nonneg {a b : Int} (hb : 0 ≤ b) (h : 0 < b * a) : 0 < a := by
  by_contra hna
  push_neg at hna
  have hle : b * a ≤ 0 := mul_nonpos_iff.mpr (Or.inl ⟨hb, hna⟩)
  omega

/-- Weakening the write region of a canvas transformer. -/
theorem writesInside_mono {π : Type} {W H : Int} {f : Canvas π → Canvas π}
    {R R2 : Int → Int → Prop} (h : ∀ px py, R px py → R2 px py)
    (hw : WritesInside W H f R) : WritesInside W H f R2 := by
  intro c px py hne
  obtain ⟨hb, hr⟩ := hw c px py hne
  exact ⟨hb, h px py hr⟩

/-- A single guarded pixel write only writes its own in-bounds target. -/
theorem writesInside_setPix {π : Type} {W H : Int} (xw yw : Int) (v : π) :
    WritesInside W H (fun c => setPix W H c xw yw v)
      (fun px py => px = xw ∧ py = yw) := by
  intro c px py hne
  simp only [setPix] at hne
  by_cases hc : (0 ≤ xw ∧ xw < W ∧ 0 ≤ yw ∧ yw < H) ∧ px = xw ∧ py = yw
  · obtain ⟨hb, he1, he2⟩ := hc
    subst he1
    subst he2
    exact ⟨hb, rfl, rfl⟩
  · rw [if_neg hc] at hne
    exact absurd rfl hne

/-- Composition preserves the write region. -/
theorem writesInside_comp {π : Type} {W H : Int} {f g : Canvas π → Canvas π}
    {R : Int → Int → Prop} (hf : WritesInside W H f R) (hg : WritesInside W H g R) :
    WritesInside W H (fun c => g (f c)) R := by
  intro c px py hne
  have hne2 : g (f c) px py ≠ c px py := hne
  by_cases h1 : g (f c) px py = f c px py
  · rw [h1] at hne2
    exact hf c px py hne2
  · exact hg (f c) px py h1

/-- A fold of region-respecting steps respects the region. -/
theorem writesInside_foldl {π α : Type} {W H : Int} {R : Int → Int → Prop}
    (step : Canvas π → α → Canvas π) :
    ∀ l : List α, (∀ a ∈ l, WritesInside W H (fun c => step c a) R) →
      WritesInside W H (fun c => l.foldl step c) R := by
  intro l
  induction l with
  | nil =>
    intro _ c px py hne
    exact absurd rfl hne
  | cons a t ih =>
    intro hstep c px py hne
    simp only [List.foldl_cons] at hne
    by_cases h1 : (t.foldl step (step c a)) px py = (step c a) px py
    · rw [h1] at hne
      exact hstep a (List.mem_cons_self a t) c px py hne
    · exact ih (fun b hb => hstep b (List.mem_cons_of_mem a hb)) (step c a) px py h1

/-- A scaled glyph dot writes only inside its scale-sized square. -/
theorem writesInside_drawDot {π : Type} {W H : Int} (colr : π) (scale px0 py0 : Int) :
    WritesInside W H (drawDot W H colr scale px0 py0)
      (fun px py => px0 ≤ px ∧ px < px0 + scale ∧ py0 ≤ py ∧ py < py0 + scale) := by
  unfold drawDot
  refine writesInside_foldl _ _ ?_
  intro sx hsx
  refine writesInside_foldl _ _ ?_
  intro sy hsy
  refine writesInside_mono ?_ (writesInside_setPix (px0 + sx) (py0 + sy) colr)
  rintro px py ⟨rfl, rfl⟩
  obtain ⟨hsx0, hsxlt⟩ := mem_intRange.mp hsx
  obtain ⟨hsy0, hsylt⟩ := mem_intRange.mp hsy
  omega

/-- The glyph-cell loop over one row writes only inside the 5-cell-wide,
one-cell-high scaled strip of that row. -/
theorem writesInside_drawGlyphCols {π : Type} {W H : Int} (colr : π)
    (scale digitX rowY : Int) :
    ∀ (l : List Char) (colI : Int), 0 ≤ colI → colI + (l.length : Int) ≤ 5 →
      WritesInside W H (drawGlyphCols W H colr scale digitX rowY l colI)
        (fun px py => digitX ≤ px ∧ px < digitX + 5 * scale ∧
          rowY ≤ py ∧ py < rowY + scale) := by
  intro l
  induction l with
  | nil =>
    intro colI h0 h5 c px py hne
    exact absurd rfl hne
  | cons ch rest ih =>
    intro colI h0 h5
    have hlen : colI + 1 + (rest.length : Int) ≤ 5 := by
      simp only [List.length_cons] at h5
      push_cast at h5
      omega
    have hdot : WritesInside W H
        (fun c => if ch = '#' then
          drawDot W H colr scale (digitX + colI * scale) rowY c else c)
        (fun px py => digitX ≤ px ∧ px < digitX + 5 * scale ∧
          rowY ≤ py ∧ py < rowY + scale) := by
      by_cases hch : ch = '#'
      · simp only [if_pos hch]
        refine writesInside_mono ?_
          (writesInside_drawDot colr scale (digitX + colI * scale) rowY)
        rintro px py ⟨ha, hb, hc2, hd⟩
        have hscale : 0 < scale := by omega
        have h1 : (colI + 1) * scale ≤ 5 * scale :=
          mul_le_mul_of_nonneg_right (by omega) (le_of_lt hscale)
        have he : (colI + 1) * scale = colI * scale + scale := by ring
        have h2 : 0 ≤ colI * scale := mul_nonneg h0 (le_of_lt hscale)
        exact ⟨by omega, by omega, hc2, hd⟩
      · simp only [if_neg hch]
        intro c px py hne
        exact absurd rfl hne
    show WritesInside W H (fun c => drawGlyphCols W H colr scale digitX rowY rest (colI + 1)
      (if ch = '#' then drawDot W H colr scale (digitX + colI * scale) rowY c else c)) _
    exact writesInside_comp hdot (ih (colI + 1) (by omega) hlen)

/-- The row loop over one digit's bitmap writes only inside the digit's
5 x 7 scaled block. -/
theorem writesInside_drawGlyphRows {π : Type} {W H : Int} (colr : π)
    (scale digitX digitY : Int) :
    ∀ (l : List String) (rowI : Int), 0 ≤ rowI → rowI + (l.length : Int) ≤ 7 →
      (∀ line ∈ l, line.length ≤ 5) →
      WritesInside W H (drawGlyphRows W H colr scale digitX digitY l rowI)
        (fun px py => digitX ≤ px ∧ px < digitX + 5 * scale ∧
          digitY ≤ py ∧ py < digitY + 7 * scale) := by
  intro l
  induction l with
  | nil =>
    intro rowI h0 h7 hlines c px py hne
    exact absurd rfl hne
  | cons line rest ih =>
    intro rowI h0 h7 hlines
    have hlen : rowI + 1 + (rest.length : Int) ≤ 7 := by
      simp only [List.length_cons] at h7
      push_cast at h7
      omega
    have hhead : WritesInside W H
        (drawGlyphCols W H colr scale digitX (digitY + rowI * scale) line.toList 0)
        (fun px py => digitX ≤ px ∧ px < digitX + 5 * scale ∧
          digitY ≤ py ∧ py < digitY + 7 * scale) := by
      have hl5 : (0 : Int) + (line.toList.length : Int) ≤ 5 := by
        have hline := hlines line (List.mem_cons_self line rest)
        have he : line.toList.length = line.length := rfl
        omega
      refine writesInside_mono ?_
        (writesInside_drawGlyphCols colr scale digitX (digitY + rowI * scale)
          line.toList 0 le_rfl hl5)
      rintro px py ⟨ha, hb, hc2, hd⟩
      have hscale : 0 < scale := by omega
      have h1 : (rowI + 1) * scale ≤ 7 * scale :=
        mul_le_mul_of_nonneg_right (by omega) (le_of_lt hscale)
      have he : (rowI + 1) * scale = rowI * scale + scale := by ring
      have h2 : 0 ≤ rowI * scale := mul_nonneg h0 (le_of_lt hscale)
      exact ⟨ha, hb, by omega, by omega⟩
    show WritesInside W H (fun c => drawGlyphRows W H colr scale digitX digitY rest (rowI + 1)
      (drawGlyphCols W H colr scale digitX (digitY + rowI * scale) line.toList 0 c)) _
    exact writesInside_comp hhead
      (ih (rowI + 1) (by omega) hlen fun s hs => hlines s (List.mem_cons_of_mem line hs))

/-- Every digit bitmap has at most 7 rows, each of at most 5 cells. -/
theorem getDigitPattern_spec (d : Char) :
    ((getDigitPattern d).length : Int) ≤ 7 ∧
      ∀ line ∈ getDigitPattern d, line.length ≤ 5 := by
  by_cases h0 : d = '0'
  · subst h0
    exact ⟨by decide, by decide⟩
  by_cases h1 : d = '1'
  · subst h1
    exact ⟨by decide, by decide⟩
  by_cases h2 : d = '2'
  · subst h2
    exact ⟨by decide, by decide⟩
  by_cases h3 : d = '3'
  · subst h3
    exact ⟨by decide, by decide⟩
  by_cases h4 : d = '4'
  · subst h4
    exact ⟨by decide, by decide⟩
  by_cases h5 : d = '5'
  · subst h5
    exact ⟨by decide, by decide⟩
  by_cases h6 : d = '6'
  · subst h6
    exact ⟨by decide, by decide⟩
  by_cases h7 : d = '7'
  · subst h7
    exact ⟨by decide, by decide⟩
  by_cases h8 : d = '8'
  · subst h8
    exact ⟨by decide, by decide⟩
  by_cases h9 : d = '9'
  · subst h9
    exact ⟨by decide, by decide⟩
  have hempty : getDigitPattern d = [] := by
    unfold getDigitPattern
    rw [if_neg h0, if_neg h1, if_neg h2, if_neg h3, if_neg h4, if_neg h5, if_neg h6,
      if_neg h7, if_neg h8, if_neg h9]
  rw [hempty]
  refine ⟨by decide, ?_⟩
  intro line hline
  exact absurd hline (List.not_mem_nil line)

/-- The digit loop writes only inside the horizontal run of digit blocks
starting at digit index i, at the common digit height. -/
theorem writesInside_drawDigits {π : Type} {W H : Int} (colr : π)
    (scale startX startY : Int) :
    ∀ (l : List Char) (i : Int), 0 ≤ i →
      WritesInside W H
        (drawDigits W H colr scale startX startY (2 * scale) (5 * scale) (2 * scale) l i)
        (fun px py => startX + 2 * scale + i * (7 * scale) ≤ px ∧
          px < startX + 2 * scale + (i + (l.length : Int)) * (7 * scale) ∧
          startY + 2 * scale ≤ py ∧ py < startY + 2 * scale + 7 * scale) := by
  intro l
  induction l with
  | nil =>
    intro i h0 c px py hne
    exact absurd rfl hne
  | cons d rest ih =>
    intro i h0
    have hpat := getDigitPattern_spec d
    have hcast : ((d :: rest).length : Int) = (rest.length : Int) + 1 := by
      simp only [List.length_cons]
      push_cast
      ring
    have hhead : WritesInside W H
        (drawGlyphRows W H colr scale (startX + 2 * scale + i * (5 * scale + 2 * scale))
          (startY + 2 * scale) (getDigitPattern d) 0)
        (fun px py => startX + 2 * scale + i * (7 * scale) ≤ px ∧
          px < startX + 2 * scale + (i + ((d :: rest).length : Int)) * (7 * scale) ∧
          startY + 2 * scale ≤ py ∧ py < startY + 2 * scale + 7 * scale) := by
      have hp7 : (0 : Int) + ((getDigitPattern d).length : Int) ≤ 7 := by
        have := hpat.1
        omega
      refine writesInside_mono ?_
        (writesInside_drawGlyphRows colr scale _ _ (getDigitPattern d) 0 le_rfl hp7 hpat.2)
      rintro px py ⟨ha, hb, hc2, hd⟩
      have he1 : i * (5 * scale + 2 * scale) = i * (7 * scale) := by ring
      rw [he1] at ha hb
      have hscale : 0 < scale := by omega
      have he2 : (i + ((d :: rest).length : Int)) * (7 * scale)
          = i * (7 * scale) + ((rest.length : Int) + 1) * (7 * scale) := by
        rw [hcast]
        ring
      have h3 : 1 * (7 * scale) ≤ ((rest.length : Int) + 1) * (7 * scale) :=
        mul_le_mul_of_nonneg_right (by omega) (by omega)
      have h4 : (1 : Int) * (7 * scale) = 7 * scale := by ring
      exact ⟨ha, by omega, hc2, hd⟩
    have hrest : WritesInside W H
        (drawDigits W H colr scale startX startY (2 * scale) (5 * scale) (2 * scale)
          rest (i + 1))
        (fun px py => startX + 2 * scale + i * (7 * scale) ≤ px ∧
          px < startX + 2 * scale + (i + ((d :: rest).length : Int)) * (7 * scale) ∧
          startY + 2 * scale ≤ py ∧ py < startY + 2 * scale + 7 * scale) := by
      refine writesInside_mono ?_ (ih (i + 1) (by omega))
      rintro px py ⟨ha, hb, hc2, hd⟩
      have he2 : (i + 1 + (rest.length : Int)) * (7 * scale)
          = (i + 1) * (7 * scale) + (rest.length : Int) * (7 * scale) := by ring
      have hLpos : 0 < (rest.length : Int) * (7 * scale) := by omega
      have h7s : 0 < 7 * scale := pos_of_mul_pos_left_nonneg (by omega) hLpos
      have he3 : (i + 1) * (7 * scale) = i * (7 * scale) + 7 * scale := by ring
      have he4 : (i + ((d :: rest).length : Int)) * (7 * scale)
          = (i + 1 + (rest.length : Int)) * (7 * scale) := by
        rw [hcast]
        ring
      exact ⟨by omega, by omega, hc2, hd⟩
    show WritesInside W H (fun c =>
      drawDigits W H colr scale startX startY (2 * scale) (5 * scale) (2 * scale) rest (i + 1)
        (drawGlyphRows W H colr scale (startX + 2 * scale + i * (5 * scale + 2 * scale))
          (startY + 2 * scale) (getDigitPattern d) 0 c)) _
    exact writesInside_comp hhead hrest

/-- C9: label clipping frame property.  For every canvas size, centre
position, number and scale, drawLargeNumber changes only in-bounds pixels
inside the label's background rectangle: every pixel outside the canvas
rectangle or outside the label rectangle keeps its previous value, and no
write escapes the canvas even when the rectangle extends past the edges. -/
theorem drawLargeNumber_frame {π : Type} (W H : Int) (numberColor numberBG : π)
    (numberScale : Int) (img : Canvas π) (x y number px py : Int)
    (hout : ¬ ((0 ≤ px ∧ px < W ∧ 0 ≤ py ∧ py < H) ∧
      labelStartX numberScale x number ≤ px ∧
      px < labelStartX numberScale x number + labelTotalWidth numberScale number ∧
      labelStartY numberScale y ≤ py ∧
      py < labelStartY numberScale y + labelTotalHeight numberScale)) :
    drawLargeNumber W H numberColor numberBG numberScale img x y number px py = img px py := by
  have hbg : WritesInside W H (fun c =>
      (intRange (labelTotalWidth numberScale number)).foldl (fun c dx =>
        (intRange (labelTotalHeight numberScale)).foldl (fun c dy =>
          setPix W H c (labelStartX numberScale x number + dx)
            (labelStartY numberScale y + dy) numberBG) c) c)
      (fun px py => labelStartX numberScale x number ≤ px ∧
        px < labelStartX numberScale x number + labelTotalWidth numberScale number ∧
        labelStartY numberScale y ≤ py ∧
        py < labelStartY numberScale y + labelTotalHeight numberScale) := by
    refine writesInside_foldl _ _ ?_
    intro dx hdx
    refine writesInside_foldl _ _ ?_
    intro dy hdy
    refine writesInside_mono ?_ (writesInside_setPix _ _ _)
    rintro px py ⟨rfl, rfl⟩
    obtain ⟨h1, h2⟩ := mem_intRange.mp hdx
    obtain ⟨h3, h4⟩ := mem_intRange.mp hdy
    omega
  have hdig : WritesInside W H
      (drawDigits W H numberColor numberScale (labelStartX numberScale x number)
        (labelStartY numberScale y) (2 * numberScale) (5 * numberScale) (2 * numberScale)
        (intDigits number) 0)
      (fun px py => labelStartX numberScale x number ≤ px ∧
        px < labelStartX numberScale x number + labelTotalWidth numberScale number ∧
        labelStartY numberScale y ≤ py ∧
        py < labelStartY numberScale y + labelTotalHeight numberScale) := by
    refine writesInside_mono ?_
      (writesInside_drawDigits numberColor numberScale (labelStartX numberScale x number)
        (labelStartY numberScale y) (intDigits number) 0 le_rfl)
    rintro px py ⟨ha, hb, hc2, hd⟩
    have hz : (0 : Int) * (7 * numberScale) = 0 := by ring
    rw [hz, add_zero] at ha
    have he0 : ((0 : Int) + ((intDigits number).length : Int)) * (7 * numberScale)
        = ((intDigits number).length : Int) * (7 * numberScale) := by ring
    rw [he0] at hb
    have hLpos : 0 < ((intDigits number).length : Int) * (7 * numberScale) := by omega
    have h7s : 0 < 7 * numberScale := pos_of_mul_pos_left_nonneg (by omega) hLpos
    have hTW : labelTotalWidth numberScale number
        = ((intDigits number).length : Int) * (7 * numberScale) + 2 * numberScale := by
      unfold labelTotalWidth
      ring
    have hTH : labelTotalHeight numberScale = 11 * numberScale := by
      unfold labelTotalHeight
      ring
    refine ⟨by omega, by omega, by omega, by omega⟩
  have hw : WritesInside W H (fun c =>
      drawLargeNumber W H numberColor numberBG numberScale c x y number)
      (fun px py => labelStartX numberScale x number ≤ px ∧
        px < labelStartX numberScale x number + labelTotalWidth numberScale number ∧
        labelStartY numberScale y ≤ py ∧
        py < labelStartY numberScale y + labelTotalHeight numberScale) :=
    writesInside_comp hbg hdig
  by_contra hne
  exact hout (hw img px py hne)

/-- C9 witness: on a 20 x 20 canvas with scale 1, drawing the number 0
centred at (0, 0) leaves the faraway in-bounds pixel (19, 19) unchanged
at the source value 0, even though the label rectangle sticks out past the
top-left image edges. -/
theorem drawLargeNumber_frame_witness :
    drawLargeNumber 20 20 7 9 1 (fun _ _ => (0 : Nat)) 0 0 0 19 19 = 0 :=
  drawLargeNumber_frame 20 20 7 9 1 (fun _ _ => (0 : Nat)) 0 0 0 19 19 (by decide)

end Imgrid
